import Mathlib

/-!
Verification of the gradient-aggregation / sampling pipeline of
`scripts/fit_all.py` (deep-potential).

Arrays of floating-point numbers are modelled as functions out of `Fin`
(rectangular numpy arrays) or as lists of rows (stacked tensors), with
exact rational entries.  `np.sort`-style ascending sorting is modelled by
`List.insertionSort (· ≤ ·)`, which produces the same sorted list as any
correct sort (sorted permutations are unique).
-/

/-- A row of a `(n, 6)` phase-space array (one 6-dimensional point). -/
def Pt : Type := Fin 6 → ℚ

instance : Inhabited Pt := ⟨fun _ => 0⟩
instance : DecidableEq Pt := inferInstanceAs (DecidableEq (Fin 6 → ℚ))

/-- numpy ascending sort of a 1-d array. -/
def npSort (l : List ℚ) : List ℚ := List.insertionSort (· ≤ ·) l

/-- The two middle entries of the sorted array: positions `(n-1)/2` and `n/2`
(equal when `n` is odd).  `np.median` is the average of the two, and
`np.median` of a list of Euclidean norms is `(√A + √B)/2` where `(A, B)` is
`medPair` of the squared norms (sorting commutes with monotone maps). -/
def medPair (l : List ℚ) : ℚ × ℚ :=
  ((npSort l).getD ((l.length - 1) / 2) 0, (npSort l).getD (l.length / 2) 0)

/-- Squared Euclidean distance between two rows,
`np.linalg.norm(a - b)**2` (exact, rational). -/
def sqDist {nd : ℕ} (a b : Fin nd → ℚ) : ℚ := ∑ d, (a d - b d) ^ 2

/-- Exact decision of the source's outlier test `dv > clip_threshold * med`,
where `dv = √X` is a Euclidean distance, `med = (√A + √B)/2` is the numpy
median of the distances, and `X`, `A`, `B` are the corresponding *squared*
distances.  For `0 ≤ c`, `0 ≤ X`, `0 ≤ A`, `0 ≤ B` this proposition is
equivalent to `c * (√A + √B)/2 < √X` over the reals (theorem
`exceedsSq_iff_sqrt` below), but is stated with rational arithmetic only,
so that it is decidable. -/
def exceedsSq (c X A B : ℚ) : Prop :=
  0 < X - c ^ 2 / 4 * (A + B) ∧ c ^ 4 / 4 * (A * B) < (X - c ^ 2 / 4 * (A + B)) ^ 2

instance (c X A B : ℚ) : Decidable (exceedsSq c X A B) := by
  unfold exceedsSq; infer_instance

/-- `np.mean(v_samp, axis=0)` for `v_samp` of shape `(ns, np, nd)`
(line 217 of `fit_all.py`). -/
def meanAxis0 {ns np nd : ℕ} (v : Fin ns → Fin np → Fin nd → ℚ) :
    Fin np → Fin nd → ℚ :=
  fun p d => (∑ s, v s p d) / (ns : ℚ)

/-- The squared version of `dv_samp[s, p] = np.linalg.norm(v_samp - v_mean[None], axis=2)`
(line 221 of `fit_all.py`). -/
def dvSq {ns np nd : ℕ} (v : Fin ns → Fin np → Fin nd → ℚ)
    (m : Fin np → Fin nd → ℚ) (p : Fin np) (s : Fin ns) : ℚ :=
  sqDist (v s p) (m p)

/-- The per-point column `dv_samp[:, p]` as a list (axis 0 of the distance
array), in squared form. -/
def dvSqList {ns np nd : ℕ} (v : Fin ns → Fin np → Fin nd → ℚ)
    (m : Fin np → Fin nd → ℚ) (p : Fin np) : List ℚ :=
  (List.finRange ns).map (dvSq v m p)

/-- `idx[s, p] = dv_samp > clip_threshold * np.median(dv_samp, axis=0)[None]`
(line 223 of `fit_all.py`), through the exact squared-distance encoding. -/
def maskIdx {ns np nd : ℕ} (c : ℚ) (v : Fin ns → Fin np → Fin nd → ℚ)
    (m : Fin np → Fin nd → ℚ) (s : Fin ns) (p : Fin np) : Prop :=
  exceedsSq c (dvSq v m p s) (medPair (dvSqList v m p)).1 (medPair (dvSqList v m p)).2

instance {ns np nd : ℕ} (c : ℚ) (v : Fin ns → Fin np → Fin nd → ℚ)
    (m : Fin np → Fin nd → ℚ) (s : Fin ns) (p : Fin np) :
    Decidable (maskIdx c v m s p) := by
  unfold maskIdx; infer_instance

/-- The samples left unmasked at point `p` (the mask `mask_bad` of line 225
repeats `idx` over all `nd` components, so a sample is masked jointly in all
components). -/
def goodSet {ns np nd : ℕ} (c : ℚ) (v : Fin ns → Fin np → Fin nd → ℚ)
    (m : Fin np → Fin nd → ℚ) (p : Fin np) : Finset (Fin ns) :=
  Finset.univ.filter (fun s => ¬ maskIdx c v m s p)

/-- One iteration of the clipping loop (lines 219-228 of `fit_all.py`):
compute distances to the current mean, mask the entries exceeding
`clip_threshold` times the per-point median distance, and take
`np.ma.mean(v_samp_ma, axis=0)`, the mean of the unmasked entries. -/
def cvmRound {ns np nd : ℕ} (c : ℚ) (v : Fin ns → Fin np → Fin nd → ℚ)
    (m : Fin np → Fin nd → ℚ) : Fin np → Fin nd → ℚ :=
  fun p d =>
    (∑ s ∈ goodSet c v m p, v s p d) / ((goodSet c v m p).card : ℚ)

/-- `clipped_vector_mean(v_samp, clip_threshold=5, rounds=5)`
(lines 213-230 of `fit_all.py`): start from the plain mean and run `rounds`
clipping iterations. -/
def clipped_vector_mean {ns np nd : ℕ} (v : Fin ns → Fin np → Fin nd → ℚ)
    (clip_threshold : ℚ) (rounds : ℕ) : Fin np → Fin nd → ℚ :=
  (cvmRound clip_threshold v)^[rounds] (meanAxis0 v)

/-! ## Specification-side definitions for the clipping loop (claim C1)

These follow the words of the claim: genuine Euclidean distances and their
median over the reals.  They are compared with the source embedding above. -/

/-- Euclidean distance of two rational rows, over the reals. -/
noncomputable def distR {nd : ℕ} (a b : Fin nd → ℚ) : ℝ :=
  Real.sqrt (∑ d, ((a d : ℝ) - (b d : ℝ)) ^ 2)

/-- Ascending sort of a list of reals (classical). -/
noncomputable def npSortR (l : List ℝ) : List ℝ :=
  List.insertionSort (· ≤ ·) l

/-- `np.median` of a 1-d array of reals: the average of the two middle
entries of the sorted array. -/
noncomputable def medianR (l : List ℝ) : ℝ :=
  ((npSortR l).getD ((l.length - 1) / 2) 0 + (npSortR l).getD (l.length / 2) 0) / 2

/-- The list of Euclidean distances of the samples at point `p` to the
current mean. -/
noncomputable def distList {ns np nd : ℕ} (v : Fin ns → Fin np → Fin nd → ℚ)
    (m : Fin np → Fin nd → ℚ) (p : Fin np) : List ℝ :=
  (List.finRange ns).map (fun s => distR (v s p) (m p))

/-- Claim C1's outlier criterion: the Euclidean distance of sample `s` to the
current per-point mean strictly exceeds `clip_threshold` times the per-point
median distance. -/
noncomputable def specOutlier {ns np nd : ℕ} (c : ℚ) (v : Fin ns → Fin np → Fin nd → ℚ)
    (m : Fin np → Fin nd → ℚ) (s : Fin ns) (p : Fin np) : Prop :=
  (c : ℝ) * medianR (distList v m p) < distR (v s p) (m p)

open Classical in
/-- One refinement iteration as described by claim C1: mark outliers by the
median test (masking all `nd` components jointly) and recompute the per-point
mean over the unmasked entries only. -/
noncomputable def specRound {ns np nd : ℕ} (c : ℚ) (v : Fin ns → Fin np → Fin nd → ℚ)
    (m : Fin np → Fin nd → ℚ) : Fin np → Fin nd → ℚ :=
  fun p d =>
    let good := Finset.univ.filter (fun s => ¬ specOutlier c v m s p)
    (∑ s ∈ good, v s p d) / (good.card : ℚ)

/-- Claim C1's description of `clipped_vector_mean`: exactly `rounds`
refinement iterations starting from the plain per-point mean; the value after
the last round is returned. -/
noncomputable def cvmSpec {ns np nd : ℕ} (v : Fin ns → Fin np → Fin nd → ℚ)
    (clip_threshold : ℚ) (rounds : ℕ) : Fin np → Fin nd → ℚ :=
  (specRound clip_threshold v)^[rounds] (meanAxis0 v)

/-! ## The squared encoding decides the real outlier test -/

theorem exceedsSq_iff_sqrt {c X A B : ℚ} (hc : 0 ≤ c) (hX : 0 ≤ X) (hA : 0 ≤ A)
    (hB : 0 ≤ B) :
    exceedsSq c X A B ↔
      (c : ℝ) * ((Real.sqrt (A : ℝ) + Real.sqrt (B : ℝ)) / 2) < Real.sqrt (X : ℝ) := by
  have hAr : (0:ℝ) ≤ (A : ℝ) := by exact_mod_cast hA
  have hBr : (0:ℝ) ≤ (B : ℝ) := by exact_mod_cast hB
  have hcr : (0:ℝ) ≤ (c : ℝ) := by exact_mod_cast hc
  have ha := Real.sqrt_nonneg (A : ℝ)
  have hb := Real.sqrt_nonneg (B : ℝ)
  have ha2 : Real.sqrt (A : ℝ) ^ 2 = (A : ℝ) := Real.sq_sqrt hAr
  have hb2 : Real.sqrt (B : ℝ) ^ 2 = (B : ℝ) := Real.sq_sqrt hBr
  have hy : (0:ℝ) ≤ (c : ℝ) * ((Real.sqrt (A : ℝ) + Real.sqrt (B : ℝ)) / 2) := by
    positivity
  have hexp : ((c : ℝ) * ((Real.sqrt (A : ℝ) + Real.sqrt (B : ℝ)) / 2)) ^ 2 =
      (c : ℝ) ^ 2 / 4 * ((A : ℝ) + (B : ℝ)) +
        (c : ℝ) ^ 2 * (Real.sqrt (A : ℝ) * Real.sqrt (B : ℝ)) / 2 := by
    linear_combination ((c : ℝ) ^ 2 / 4) * ha2 + ((c : ℝ) ^ 2 / 4) * hb2
  have hy2 : ((c : ℝ) ^ 2 * (Real.sqrt (A : ℝ) * Real.sqrt (B : ℝ)) / 2) ^ 2 =
      (c : ℝ) ^ 4 / 4 * ((A : ℝ) * (B : ℝ)) := by
    linear_combination ((c : ℝ) ^ 4 / 4 * Real.sqrt (B : ℝ) ^ 2) * ha2 +
      ((c : ℝ) ^ 4 / 4 * (A : ℝ)) * hb2
  have hab : (0:ℝ) ≤ (c : ℝ) ^ 2 * (Real.sqrt (A : ℝ) * Real.sqrt (B : ℝ)) / 2 := by
    positivity
  rw [Real.lt_sqrt hy]
  unfold exceedsSq
  constructor
  · rintro ⟨h1, h2⟩
    have h1r : (0:ℝ) < (X : ℝ) - (c : ℝ) ^ 2 / 4 * ((A : ℝ) + (B : ℝ)) := by
      exact_mod_cast h1
    have h2r : (c : ℝ) ^ 4 / 4 * ((A : ℝ) * (B : ℝ)) <
        ((X : ℝ) - (c : ℝ) ^ 2 / 4 * ((A : ℝ) + (B : ℝ))) ^ 2 := by exact_mod_cast h2
    have hyT : (c : ℝ) ^ 2 * (Real.sqrt (A : ℝ) * Real.sqrt (B : ℝ)) / 2 <
        (X : ℝ) - (c : ℝ) ^ 2 / 4 * ((A : ℝ) + (B : ℝ)) := by
      nlinarith [h1r, h2r, hy2, hab]
    linarith [hexp, hyT]
  · intro h
    have hyT : (c : ℝ) ^ 2 * (Real.sqrt (A : ℝ) * Real.sqrt (B : ℝ)) / 2 <
        (X : ℝ) - (c : ℝ) ^ 2 / 4 * ((A : ℝ) + (B : ℝ)) := by linarith [hexp]
    have h1r : (0:ℝ) < (X : ℝ) - (c : ℝ) ^ 2 / 4 * ((A : ℝ) + (B : ℝ)) :=
      lt_of_le_of_lt hab hyT
    refine ⟨by exact_mod_cast h1r, ?_⟩
    have h2r : (c : ℝ) ^ 4 / 4 * ((A : ℝ) * (B : ℝ)) <
        ((X : ℝ) - (c : ℝ) ^ 2 / 4 * ((A : ℝ) + (B : ℝ))) ^ 2 := by
      nlinarith [hyT, hab, hy2]
    exact_mod_cast h2r

/-- Square root of a rational, as a real. -/
noncomputable def sqrtQ (q : ℚ) : ℝ := Real.sqrt (q : ℝ)

/-- Sorting commutes with the monotone map `q ↦ √(q : ℝ)`. -/
theorem npSortR_map_sqrt (l : List ℚ) :
    npSortR (l.map sqrtQ) = (npSort l).map sqrtQ := by
  apply List.eq_of_perm_of_sorted (r := (· ≤ · : ℝ → ℝ → Prop))
  · exact (List.perm_insertionSort _ _).trans
      ((List.perm_insertionSort _ l).map _).symm
  · exact List.sorted_insertionSort _ _
  · exact List.Pairwise.map _
      (fun a b hab => Real.sqrt_le_sqrt (by exact_mod_cast hab))
      (List.sorted_insertionSort _ l)

/-- `np.median` of the list of square roots, via the two middle squared
entries. -/
theorem medianR_map_sqrt (l : List ℚ) (hl : l ≠ []) :
    medianR (l.map sqrtQ) = (sqrtQ (medPair l).1 + sqrtQ (medPair l).2) / 2 := by
  have hlen : 0 < l.length := List.length_pos.mpr hl
  have hs : (npSort l).length = l.length := List.length_insertionSort _ l
  have h1 : (l.length - 1) / 2 < l.length := by omega
  have h2 : l.length / 2 < l.length := by omega
  unfold medianR medPair
  unfold npSortR
  rw [show List.insertionSort (· ≤ ·) (l.map sqrtQ) = npSortR (l.map sqrtQ) from rfl,
    npSortR_map_sqrt l]
  rw [List.length_map]
  rw [List.getD_eq_getElem _ _ (by rw [List.length_map, hs]; exact h1),
    List.getD_eq_getElem _ _ (by rw [List.length_map, hs]; exact h2),
    List.getD_eq_getElem _ _ (by rw [hs]; exact h1),
    List.getD_eq_getElem _ _ (by rw [hs]; exact h2),
    List.getElem_map, List.getElem_map]

theorem dvSq_nonneg {ns np nd : ℕ} (v : Fin ns → Fin np → Fin nd → ℚ)
    (m : Fin np → Fin nd → ℚ) (p : Fin np) (s : Fin ns) : 0 ≤ dvSq v m p s := by
  unfold dvSq sqDist
  exact Finset.sum_nonneg fun _ _ => sq_nonneg _

theorem medPair_mem {l : List ℚ} (hl : l ≠ []) :
    (medPair l).1 ∈ l ∧ (medPair l).2 ∈ l := by
  have hlen : 0 < l.length := List.length_pos.mpr hl
  have hs : (npSort l).length = l.length := List.length_insertionSort _ l
  have h1 : (l.length - 1) / 2 < (npSort l).length := by omega
  have h2 : l.length / 2 < (npSort l).length := by omega
  unfold medPair
  rw [List.getD_eq_getElem _ _ h1, List.getD_eq_getElem _ _ h2]
  exact ⟨(List.perm_insertionSort _ l).mem_iff.mp (List.getElem_mem h1),
    (List.perm_insertionSort _ l).mem_iff.mp (List.getElem_mem h2)⟩

/-- `distR` is the square root of the squared distance. -/
theorem distR_eq_sqrtQ {ns np nd : ℕ} (v : Fin ns → Fin np → Fin nd → ℚ)
    (m : Fin np → Fin nd → ℚ) (p : Fin np) (s : Fin ns) :
    distR (v s p) (m p) = sqrtQ (dvSq v m p s) := by
  unfold distR sqrtQ dvSq sqDist
  congr 1
  push_cast
  rfl

/-- The masking test of the source's squared encoding agrees with the
claim's Euclidean-distance test. -/
theorem maskIdx_iff_specOutlier {ns np nd : ℕ} {c : ℚ}
    (v : Fin ns → Fin np → Fin nd → ℚ) (m : Fin np → Fin nd → ℚ)
    (s : Fin ns) (p : Fin np) (hc : 0 ≤ c) (hns : 0 < ns) :
    maskIdx c v m s p ↔ specOutlier c v m s p := by
  have hne : dvSqList v m p ≠ [] := by
    unfold dvSqList
    simp only [ne_eq, List.map_eq_nil_iff]
    intro h
    have := List.length_finRange ns
    rw [h] at this
    simp at this
    omega
  have hmem := medPair_mem hne
  have hnn : ∀ q ∈ dvSqList v m p, 0 ≤ q := by
    intro q hq
    unfold dvSqList at hq
    obtain ⟨s', _, rfl⟩ := List.mem_map.mp hq
    exact dvSq_nonneg v m p s'
  have hA : 0 ≤ (medPair (dvSqList v m p)).1 := hnn _ hmem.1
  have hB : 0 ≤ (medPair (dvSqList v m p)).2 := hnn _ hmem.2
  have hX : 0 ≤ dvSq v m p s := dvSq_nonneg v m p s
  have hdl : distList v m p = (dvSqList v m p).map sqrtQ := by
    unfold distList dvSqList
    rw [List.map_map]
    exact List.map_congr_left fun s' _ => distR_eq_sqrtQ v m p s'
  unfold maskIdx specOutlier
  rw [exceedsSq_iff_sqrt hc hX hA hB, hdl, medianR_map_sqrt _ hne,
    distR_eq_sqrtQ v m p s]
  unfold sqrtQ
  exact Iff.rfl

/-- Under a nonnegative threshold each clipping round of the source equals
the round described by claim C1, for every current mean. -/
theorem specRound_eq_cvmRound {ns np nd : ℕ} {c : ℚ}
    (v : Fin ns → Fin np → Fin nd → ℚ) (hc : 0 ≤ c) (hns : 0 < ns) :
    specRound c v = cvmRound c v := by
  classical
  funext m p d
  unfold specRound cvmRound goodSet
  have hfil : Finset.filter (fun s => ¬ specOutlier c v m s p) Finset.univ =
      Finset.filter (fun s => ¬ maskIdx c v m s p) Finset.univ :=
    Finset.filter_congr
      (fun s _ => not_congr (maskIdx_iff_specOutlier v m s p hc hns).symm)
  simp only [hfil]

/-- C1: `clipped_vector_mean(v_samp, clip_threshold, rounds)` performs
exactly `rounds` refinement iterations, each of which computes the Euclidean
distance of every sample vector to the current per-point mean, marks as
outliers exactly the entries whose distance strictly exceeds
`clip_threshold` times the per-point median distance (masking all `n_dim`
components jointly), and recomputes the per-point mean over the unmasked
entries only; the value after the last round is returned.  Stated as:
the source embedding equals the round-for-round specification `cvmSpec`,
for every array with at least one sample and nonnegative threshold. -/
theorem clipped_vector_mean_eq_spec {ns np nd : ℕ}
    (v : Fin ns → Fin np → Fin nd → ℚ) (clip_threshold : ℚ) (rounds : ℕ)
    (hc : 0 ≤ clip_threshold) (hns : 0 < ns) :
    clipped_vector_mean v clip_threshold rounds = cvmSpec v clip_threshold rounds := by
  unfold clipped_vector_mean cvmSpec
  rw [specRound_eq_cvmRound v hc hns]

/-- Witness for C1 at a concrete input. -/
theorem clipped_vector_mean_eq_spec_witness :
    @clipped_vector_mean 1 1 1 (fun _ _ _ => (2 : ℚ)) 5 1 =
      @cvmSpec 1 1 1 (fun _ _ _ => (2 : ℚ)) 5 1 :=
  clipped_vector_mean_eq_spec (fun _ _ _ => (2 : ℚ)) 5 1 (by norm_num) (by norm_num)

/-- If no entry is masked at the current mean, the clipping round returns the
plain mean over all samples. -/
theorem cvmRound_of_no_mask {ns np nd : ℕ} {c : ℚ}
    (v : Fin ns → Fin np → Fin nd → ℚ) (m : Fin np → Fin nd → ℚ)
    (h : ∀ s p, ¬ maskIdx c v m s p) : cvmRound c v m = meanAxis0 v := by
  funext p d
  unfold cvmRound goodSet meanAxis0
  rw [Finset.filter_eq_self.mpr (fun s _ => h s p), Finset.card_univ,
    Fintype.card_fin]

/-- C7: if at every round no sample's distance to the current mean strictly
exceeds `clip_threshold` times the per-point median distance (i.e. no entry
is ever clipped), then `clipped_vector_mean` returns the plain componentwise
mean `np.mean(v_samp, axis=0)`, for every number of rounds. -/
theorem clipped_vector_mean_no_clip_eq_mean {ns np nd : ℕ} {c : ℚ} {rounds : ℕ}
    (v : Fin ns → Fin np → Fin nd → ℚ)
    (H : ∀ i, i < rounds →
      ∀ s p, ¬ maskIdx c v ((cvmRound c v)^[i] (meanAxis0 v)) s p) :
    clipped_vector_mean v c rounds = meanAxis0 v := by
  unfold clipped_vector_mean
  induction rounds with
  | zero => rfl
  | succ r ih =>
      rw [Function.iterate_succ_apply',
        ih (fun i hi => H i (Nat.lt_succ_of_lt hi)),
        cvmRound_of_no_mask v (meanAxis0 v) ?_]
      intro s p
      have := H r (Nat.lt_succ_self r) s p
      rwa [ih (fun i hi => H i (Nat.lt_succ_of_lt hi))] at this

/-- Witness for C7: all sample vectors identical, so nothing is ever
clipped. -/
theorem clipped_vector_mean_no_clip_eq_mean_witness :
    @clipped_vector_mean 1 1 1 (fun _ _ _ => (3 : ℚ)) 5 1 =
      @meanAxis0 1 1 1 (fun _ _ _ => (3 : ℚ)) := by
  apply clipped_vector_mean_no_clip_eq_mean
  intro i hi s p
  interval_cases i
  simp [maskIdx, exceedsSq, dvSq, sqDist, dvSqList, medPair, npSort,
    meanAxis0, List.insertionSort, List.orderedInsert, List.finRange]

/-! ## Outlier counting (claim C10) -/

/-- A threshold of at least 1 masks no more than the unit threshold does. -/
theorem exceedsSq_one_of {c X A B : ℚ} (hc : 1 ≤ c) (hA : 0 ≤ A) (hB : 0 ≤ B)
    (h : exceedsSq c X A B) : exceedsSq 1 X A B := by
  obtain ⟨h1, h2⟩ := h
  have hc2 : 1 ≤ c ^ 2 := by nlinarith
  have hc4 : 1 ≤ c ^ 4 := by nlinarith
  have hTle : X - c ^ 2 / 4 * (A + B) ≤ X - 1 ^ 2 / 4 * (A + B) := by nlinarith
  have h1' : 0 < X - 1 ^ 2 / 4 * (A + B) := lt_of_lt_of_le h1 hTle
  refine ⟨h1', ?_⟩
  have hAB : 0 ≤ A * B := mul_nonneg hA hB
  have hsq : (X - c ^ 2 / 4 * (A + B)) ^ 2 ≤ (X - 1 ^ 2 / 4 * (A + B)) ^ 2 := by
    nlinarith
  nlinarith

/-- An entry accepted by the outlier test strictly exceeds the lower middle
element of the sorted squared distances. -/
theorem lt_of_exceedsSq {c X A B : ℚ} (hc : 1 ≤ c) (hA : 0 ≤ A) (hB : 0 ≤ B)
    (hAB : A ≤ B) (h : exceedsSq c X A B) : A < X := by
  obtain ⟨h1, h2⟩ := exceedsSq_one_of hc hA hB h
  by_contra hXA
  push_neg at hXA
  have hu : X - 1 ^ 2 / 4 * (A + B) ≤ (3 * A - B) / 4 := by linarith
  have h3 : 0 < 3 * A - B := by linarith
  have h9 : 0 ≤ 9 * A - B := by linarith
  have hp : 0 ≤ (B - A) * (9 * A - B) := mul_nonneg (by linarith) h9
  have hsq : (3 * A - B) ^ 2 ≤ 4 * (A * B) := by nlinarith [hp]
  have h16 : 16 * (X - 1 ^ 2 / 4 * (A + B)) ^ 2 ≤ (3 * A - B) ^ 2 := by
    nlinarith [h1, hu]
  linarith

/-- Cardinality of a filtered `Fin` universe as a `countP` over `finRange`. -/
theorem card_filter_univ_eq_countP {n : ℕ} (P : Fin n → Prop) [DecidablePred P] :
    (Finset.univ.filter P).card =
      (List.finRange n).countP (fun s => decide (P s)) := by
  rw [Finset.card_filter, Fin.sum_univ_def]
  induction List.finRange n with
  | nil => simp
  | cons a l ih =>
      rw [List.map_cons, List.sum_cons, List.countP_cons, ih]
      by_cases h : P a <;> simp [h] <;> omega

/-- In any nonempty list, at least `(n-1)/2 + 1` entries are at most the
lower middle element of the sorted order. -/
theorem countP_le_medPair_fst {l : List ℚ} (hl : l ≠ []) :
    (l.length - 1) / 2 + 1 ≤ l.countP (fun x => decide (x ≤ (medPair l).1)) := by
  have hlen : 0 < l.length := List.length_pos.mpr hl
  have hs : (npSort l).length = l.length := List.length_insertionSort _ l
  have hk : (l.length - 1) / 2 < (npSort l).length := by omega
  have hsorted : (npSort l).Sorted (· ≤ ·) := List.sorted_insertionSort _ l
  have hA : (medPair l).1 = (npSort l)[(l.length - 1) / 2] := by
    unfold medPair
    rw [List.getD_eq_getElem _ _ hk]
  have hcnt : (npSort l).countP (fun x => decide (x ≤ (medPair l).1)) =
      l.countP (fun x => decide (x ≤ (medPair l).1)) := by
    unfold npSort
    exact (List.perm_insertionSort _ l).countP_eq _
  rw [← hcnt]
  have hsplit := List.take_append_drop ((l.length - 1) / 2 + 1) (npSort l)
  have htake : ((npSort l).take ((l.length - 1) / 2 + 1)).countP
      (fun x => decide (x ≤ (medPair l).1)) = (l.length - 1) / 2 + 1 := by
    rw [List.countP_eq_length.mpr]
    · rw [List.length_take]
      omega
    · intro a ha
      obtain ⟨i, hi, rfl⟩ := List.mem_take_iff_getElem.mp ha
      have hil : i < (npSort l).length := lt_of_lt_of_le hi (min_le_right _ _)
      have hik : i ≤ (l.length - 1) / 2 := by omega
      simp only [decide_eq_true_eq, hA]
      have := hsorted.rel_get_of_le
        (a := ⟨i, hil⟩) (b := ⟨(l.length - 1) / 2, hk⟩) (by exact hik)
      simpa [List.get_eq_getElem] using this
  conv_rhs => rw [← hsplit]
  rw [List.countP_append, htake]
  omega

/-- The lower middle element is at most the upper middle element. -/
theorem medPair_fst_le_snd {l : List ℚ} (hl : l ≠ []) :
    (medPair l).1 ≤ (medPair l).2 := by
  have hlen : 0 < l.length := List.length_pos.mpr hl
  have hs : (npSort l).length = l.length := List.length_insertionSort _ l
  have hk1 : (l.length - 1) / 2 < (npSort l).length := by omega
  have hk2 : l.length / 2 < (npSort l).length := by omega
  have hsorted : (npSort l).Sorted (· ≤ ·) := List.sorted_insertionSort _ l
  unfold medPair
  rw [List.getD_eq_getElem _ _ hk1, List.getD_eq_getElem _ _ hk2]
  have := hsorted.rel_get_of_le
    (a := ⟨(l.length - 1) / 2, hk1⟩) (b := ⟨l.length / 2, hk2⟩) (by
      simp only [Fin.mk_le_mk]
      omega)
  simpa [List.get_eq_getElem] using this

/-- At every point and for every current mean, a clip threshold of at least 1
masks at most `⌊n_samp / 2⌋` samples. -/
theorem card_maskIdx_le_half {ns np nd : ℕ} {c : ℚ}
    (v : Fin ns → Fin np → Fin nd → ℚ) (m : Fin np → Fin nd → ℚ) (p : Fin np)
    (hc : 1 ≤ c) (hns : 0 < ns) :
    (Finset.univ.filter (fun s => maskIdx c v m s p)).card ≤ ns / 2 := by
  have hne : dvSqList v m p ≠ [] := by
    unfold dvSqList
    simp only [ne_eq, List.map_eq_nil_iff]
    intro h
    have := List.length_finRange ns
    rw [h] at this
    simp at this
    omega
  have hlen : (dvSqList v m p).length = ns := by
    unfold dvSqList
    rw [List.length_map, List.length_finRange]
  have hmem := medPair_mem hne
  have hnn : ∀ q ∈ dvSqList v m p, 0 ≤ q := by
    intro q hq
    unfold dvSqList at hq
    obtain ⟨s', _, rfl⟩ := List.mem_map.mp hq
    exact dvSq_nonneg v m p s'
  have hA : 0 ≤ (medPair (dvSqList v m p)).1 := hnn _ hmem.1
  have hB : 0 ≤ (medPair (dvSqList v m p)).2 := hnn _ hmem.2
  have hAB := medPair_fst_le_snd hne
  -- masked samples strictly exceed the lower middle squared distance
  have hsub : (Finset.univ.filter (fun s => maskIdx c v m s p)) ⊆
      (Finset.univ.filter (fun s => (medPair (dvSqList v m p)).1 < dvSq v m p s)) := by
    intro s hsmem
    simp only [Finset.mem_filter, Finset.mem_univ, true_and] at hsmem ⊢
    exact lt_of_exceedsSq hc hA hB hAB hsmem
  refine le_trans (Finset.card_le_card hsub) ?_
  rw [card_filter_univ_eq_countP]
  have hmap : (List.finRange ns).countP
      (fun s => decide ((medPair (dvSqList v m p)).1 < dvSq v m p s)) =
      (dvSqList v m p).countP
        (fun x => decide ((medPair (dvSqList v m p)).1 < x)) := by
    unfold dvSqList
    rw [List.countP_map]
    rfl
  rw [hmap]
  have hsplit := List.length_eq_countP_add_countP
    (fun x => decide (x ≤ (medPair (dvSqList v m p)).1)) (dvSqList v m p)
  have hcongr : (dvSqList v m p).countP
      (fun x => decide ((medPair (dvSqList v m p)).1 < x)) =
      (dvSqList v m p).countP
        (fun a => decide ¬(decide (a ≤ (medPair (dvSqList v m p)).1) = true)) := by
    apply List.countP_congr
    intro x _
    simp [not_le]
  have hge := countP_le_medPair_fst hne
  rw [hcongr]
  rw [hlen] at hsplit hge
  omega

/-- C10: with at least one sample and a clip threshold of at least 1, every
round of `clipped_vector_mean` masks at most `⌊n_samp/2⌋` samples at every
point, so at least one sample stays unmasked and the masked mean is
well-defined at every round (the `(n_point, n_dim)` shape of the result is
carried by the types). -/
theorem clipped_vector_mean_mask_half_bound {ns np nd : ℕ} {c : ℚ}
    (v : Fin ns → Fin np → Fin nd → ℚ) (hc : 1 ≤ c) (hns : 0 < ns) :
    ∀ (i : ℕ) (p : Fin np),
      (Finset.univ.filter
        (fun s => maskIdx c v ((cvmRound c v)^[i] (meanAxis0 v)) s p)).card ≤ ns / 2
      ∧ 0 < (goodSet c v ((cvmRound c v)^[i] (meanAxis0 v)) p).card := by
  intro i p
  have hbad := card_maskIdx_le_half v ((cvmRound c v)^[i] (meanAxis0 v)) p hc hns
  refine ⟨hbad, ?_⟩
  have hsum := Finset.filter_card_add_filter_neg_card_eq_card
    (s := (Finset.univ : Finset (Fin ns)))
    (fun s => maskIdx c v ((cvmRound c v)^[i] (meanAxis0 v)) s p)
  rw [Finset.card_univ, Fintype.card_fin] at hsum
  unfold goodSet
  omega

/-- Witness for C10 at a concrete input. -/
theorem clipped_vector_mean_mask_half_bound_witness :
    (Finset.univ.filter
      (fun s => @maskIdx 1 1 1 1 (fun _ _ _ => (7 : ℚ))
        ((@cvmRound 1 1 1 1 (fun _ _ _ => (7 : ℚ)))^[0]
          (@meanAxis0 1 1 1 (fun _ _ _ => (7 : ℚ)))) s (0 : Fin 1))).card ≤ 1 / 2
    ∧ 0 < (@goodSet 1 1 1 1 (fun _ _ _ => (7 : ℚ))
        ((@cvmRound 1 1 1 1 (fun _ _ _ => (7 : ℚ)))^[0]
          (@meanAxis0 1 1 1 (fun _ _ _ => (7 : ℚ)))) (0 : Fin 1)).card :=
  clipped_vector_mean_mask_half_bound (fun _ _ _ => (7 : ℚ)) (le_refl 1)
    (by norm_num) 0 0

/-! ## Flows, batched gradients and sampling (claims C2, C3, C4, C8, C9)

`flow_ffjord_tf.FFJORDFlow` objects are trained TensorFlow models whose
internals are not part of `fit_all.py`; a trained flow is modelled by the
functions `fit_all.py` uses: its per-row probability density `prob`, the
per-row gradient `dprob` of `prob` with respect to the input (what
`tf.GradientTape.gradient` returns for the row-wise density), and its
sampler.  Sampling is random in TensorFlow; it is determinized by indexing
each batch draw, and the TensorFlow shape guarantee
`flow.sample([n]).shape == (n, 6)` is carried as a field.  Python
exceptions are modelled by `Except String`, with the Python exception class
name as the message. -/

structure TrainedFlow where
  prob : Pt → ℚ
  dprob : Pt → Pt
  sample : ℕ → ℕ → List Pt
  sample_len : ∀ n k, (sample n k).length = n

/-- `tf.data.Dataset.from_tensor_slices(eta).batch(batch_size)`: the list of
`⌈n / batch_size⌉` consecutive slices of length `batch_size` (the last one
possibly shorter). -/
def batchDataset {α : Type} (batch_size : ℕ) (l : List α) : List (List α) :=
  (List.range ((l.length + batch_size - 1) / batch_size)).map
    (fun k => (l.drop (k * batch_size)).take batch_size)

/-- `batch_calc_df_deta(flow, eta, batch_size)` (lines 181-210 of
`fit_all.py`).  `calc_grads` maps each row of a batch to the gradient of
`flow.prob` at that row; the results are concatenated.  The progress bar
`bar` is created only on loop iterations with `k != 0`, so the final
`bar.update(n_data)` dereferences `None` (an `AttributeError`) whenever the
dataset yields fewer than two batches; `batch(0)` itself is rejected by
TensorFlow. -/
def batch_calc_df_deta (flow : TrainedFlow) (eta : List Pt) (batch_size : ℕ) :
    Except String (List Pt) :=
  if batch_size = 0 then .error "InvalidArgumentError" else
  if (batchDataset batch_size eta).length < 2 then .error "AttributeError" else
  .ok ((batchDataset batch_size eta).map (List.map flow.dprob)).flatten

theorem batchDataset_length {α : Type} (bs : ℕ) (l : List α) :
    (batchDataset bs l).length = (l.length + bs - 1) / bs := by
  unfold batchDataset
  rw [List.length_map, List.length_range]

theorem batchDataset_flatten_take {α : Type} (bs : ℕ) (l : List α) (k : ℕ) :
    ((List.range k).map (fun i => (l.drop (i * bs)).take bs)).flatten =
      l.take (k * bs) := by
  induction k with
  | zero => simp
  | succ k ih =>
      rw [List.range_succ, List.map_append, List.flatten_append, ih]
      simp only [List.map_cons, List.map_nil, List.flatten_cons, List.flatten_nil,
        List.append_nil]
      rw [Nat.succ_mul, List.take_add]

/-- With a positive batch size, concatenating the batches recovers the
dataset. -/
theorem batchDataset_flatten {α : Type} {bs : ℕ} (hbs : 0 < bs) (l : List α) :
    (batchDataset bs l).flatten = l := by
  unfold batchDataset
  rw [batchDataset_flatten_take]
  apply List.take_of_length_le
  have h := le_smul_ceilDiv (a := bs) (b := l.length) hbs
  rw [Nat.ceilDiv_eq_add_pred_div, smul_eq_mul, mul_comm] at h
  exact h

/-- With a positive batch size, the dataset yields at most one batch exactly
when it has at most `batch_size` rows. -/
theorem batchDataset_length_le_one_iff {α : Type} {bs : ℕ} (hbs : 0 < bs)
    (l : List α) : (batchDataset bs l).length ≤ 1 ↔ l.length ≤ bs := by
  rw [batchDataset_length, ← Nat.ceilDiv_eq_add_pred_div,
    ceilDiv_le_iff_le_mul hbs, mul_one]

/-- With `0 < batch_size < n`, `batch_calc_df_deta` returns normally and
computes the row-wise gradient of the flow's density over all of `eta`. -/
theorem batch_calc_df_deta_ok (flow : TrainedFlow) (eta : List Pt) (bs : ℕ)
    (h1 : 0 < bs) (h2 : bs < eta.length) :
    batch_calc_df_deta flow eta bs = .ok (eta.map flow.dprob) := by
  unfold batch_calc_df_deta
  rw [if_neg (by omega)]
  rw [if_neg (by
    intro hlt
    have := (batchDataset_length_le_one_iff h1 eta).mp (by omega)
    omega)]
  rw [← List.map_flatten, batchDataset_flatten h1]

/-- C3 (amended): for every flow, every `eta`, and every pair of batch sizes
that are positive and strictly smaller than the number of rows of `eta` (so
that each batched dataset yields at least two batches and the calls return
normally), the two calls of `batch_calc_df_deta` return the same array: the
row-ordered concatenation over batches of the gradient of the flow's
density with respect to its input at each row of `eta`; in particular the
result has the same shape as `eta` and is independent of the batch size. -/
theorem batch_calc_df_deta_batch_invariant (flow : TrainedFlow) (eta : List Pt)
    (b1 b2 : ℕ) (h1 : 0 < b1) (h2 : b1 < eta.length) (h3 : 0 < b2)
    (h4 : b2 < eta.length) :
    batch_calc_df_deta flow eta b1 = .ok (eta.map flow.dprob) ∧
    batch_calc_df_deta flow eta b2 = .ok (eta.map flow.dprob) ∧
    batch_calc_df_deta flow eta b1 = batch_calc_df_deta flow eta b2 ∧
    (eta.map flow.dprob).length = eta.length :=
  ⟨batch_calc_df_deta_ok flow eta b1 h1 h2,
   batch_calc_df_deta_ok flow eta b2 h3 h4,
   by rw [batch_calc_df_deta_ok flow eta b1 h1 h2,
     batch_calc_df_deta_ok flow eta b2 h3 h4],
   List.length_map eta flow.dprob⟩

/-- A concrete trained flow used for witnesses: uniform density with zero
gradient, sampling the zero point. -/
def testFlow : TrainedFlow :=
  ⟨fun _ => 0, id, fun n _ => List.replicate n (fun _ => 0),
   fun n _ => List.length_replicate n _⟩

/-- Witness for the amended C3 at a concrete input. -/
theorem batch_calc_df_deta_batch_invariant_witness :
    batch_calc_df_deta testFlow
        [(fun _ => 0 : Pt), (fun _ => 0 : Pt), (fun _ => 0 : Pt)] 1 =
      .ok ([(fun _ => 0 : Pt), (fun _ => 0 : Pt), (fun _ => 0 : Pt)].map
        testFlow.dprob) ∧
    batch_calc_df_deta testFlow
        [(fun _ => 0 : Pt), (fun _ => 0 : Pt), (fun _ => 0 : Pt)] 2 =
      .ok ([(fun _ => 0 : Pt), (fun _ => 0 : Pt), (fun _ => 0 : Pt)].map
        testFlow.dprob) ∧
    batch_calc_df_deta testFlow
        [(fun _ => 0 : Pt), (fun _ => 0 : Pt), (fun _ => 0 : Pt)] 1 =
      batch_calc_df_deta testFlow
        [(fun _ => 0 : Pt), (fun _ => 0 : Pt), (fun _ => 0 : Pt)] 2 ∧
    (([(fun _ => 0 : Pt), (fun _ => 0 : Pt), (fun _ => 0 : Pt)]).map
      testFlow.dprob).length =
      [(fun _ => 0 : Pt), (fun _ => 0 : Pt), (fun _ => 0 : Pt)].length :=
  batch_calc_df_deta_batch_invariant testFlow _ 1 2 (by decide) (by decide)
    (by decide) (by decide)

/-- C3 counterexample: as literally stated the claim is false, because with
a single batch the call raises instead of returning: with two rows,
batch size 1 returns normally while batch size 2 (both positive) raises
`AttributeError`, so the two calls do not return the same array. -/
theorem batch_calc_df_deta_not_batch_invariant :
    0 < 1 ∧ 0 < 2 ∧
    batch_calc_df_deta testFlow [(fun _ => 0 : Pt), (fun _ => 0 : Pt)] 1 =
      .ok [(fun _ => 0 : Pt), (fun _ => 0 : Pt)] ∧
    batch_calc_df_deta testFlow [(fun _ => 0 : Pt), (fun _ => 0 : Pt)] 2 =
      .error "AttributeError" ∧
    batch_calc_df_deta testFlow [(fun _ => 0 : Pt), (fun _ => 0 : Pt)] 1 ≠
      batch_calc_df_deta testFlow [(fun _ => 0 : Pt), (fun _ => 0 : Pt)] 2 := by
  refine ⟨by decide, by decide, ?_, ?_, ?_⟩ <;>
    simp [batch_calc_df_deta, batchDataset, testFlow, List.range_succ]

/-- C9: for every flow and every `eta` with at least one and at most
`batch_size` rows (so the batched dataset yields exactly one batch),
`batch_calc_df_deta` raises an `AttributeError` (the progress-bar variable
is assigned only on the second and later batches, and the final
`bar.update(n_data)` dereferences `None`); moreover the call returns
normally only when the dataset yields at least two batches. -/
theorem batch_calc_df_deta_single_batch_raises (flow : TrainedFlow)
    (eta : List Pt) (bs : ℕ) (h1 : 1 ≤ eta.length) (h2 : eta.length ≤ bs) :
    batch_calc_df_deta flow eta bs = .error "AttributeError" ∧
    ∀ (flow' : TrainedFlow) (eta' : List Pt) (bs' : ℕ) (r : List Pt),
      batch_calc_df_deta flow' eta' bs' = .ok r →
        2 ≤ (batchDataset bs' eta').length := by
  constructor
  · have hbs : 0 < bs := by omega
    unfold batch_calc_df_deta
    rw [if_neg (by omega)]
    rw [if_pos (by
      have := (batchDataset_length_le_one_iff hbs eta).mpr h2
      omega)]
  · intro flow' eta' bs' r hok
    unfold batch_calc_df_deta at hok
    by_cases hz : bs' = 0
    · rw [if_pos hz] at hok
      exact absurd hok (by simp)
    · rw [if_neg hz] at hok
      by_cases hlt : (batchDataset bs' eta').length < 2
      · rw [if_pos hlt] at hok
        exact absurd hok (by simp)
      · omega

/-- Witness for C9 at a concrete input (one row, batch size one). -/
theorem batch_calc_df_deta_single_batch_raises_witness :
    batch_calc_df_deta testFlow [(fun _ => 0 : Pt)] 1 = .error "AttributeError" :=
  (batch_calc_df_deta_single_batch_raises testFlow [(fun _ => 0 : Pt)] 1
    (by decide) (by decide)).1

/-- One flow's contribution to the sample array (lines 244-256 of
`fit_all.py`): `n_batches` calls of `sample_batch()`, each drawing
`sample_batch_size` points from the flow, in order. -/
def flowBlock (n_batches sample_batch_size : ℕ) (flow : TrainedFlow) : List Pt :=
  ((List.range n_batches).map (flow.sample sample_batch_size)).flatten

/-- The dictionary returned by `sample_from_flows` (lines 279-287):
positions, aggregated gradients and per-flow gradients. -/
structure SFFRet where
  eta : List Pt
  df_deta : List Pt
  df_deta_indiv : List (List Pt)
deriving DecidableEq

/-- The gradient loop of lines 264-270 of `fit_all.py`: for each flow the
right-hand side `batch_calc_df_deta(flow, eta, grad_batch_size)` is
evaluated first, then the subscript assignment `df_deta_indiv[i] = ...`
dereferences `df_deta_indiv`, a name that is only bound when `return_indiv`
is true (line 261), raising a `NameError` otherwise. -/
def gradLoop (flows : List TrainedFlow) (eta : List Pt) (grad_batch_size : ℕ)
    (return_indiv : Bool) : Except String (List (List Pt)) :=
  match flows with
  | [] => .ok []
  | flow :: rest =>
      match batch_calc_df_deta flow eta grad_batch_size with
      | .error e => .error e
      | .ok r =>
          if return_indiv then
            match gradLoop rest eta grad_batch_size return_indiv with
            | .error e => .error e
            | .ok rs => .ok (r :: rs)
          else .error "NameError"

/-- `sample_from_flows(flow_list, n_samples, return_indiv, grad_batch_size,
sample_batch_size, f_reduce)` (lines 233-287 of `fit_all.py`).
`n_batches = n_samples // (n_flows * sample_batch_size)` raises
`ZeroDivisionError` when the divisor is zero; `np.concatenate(eta)` raises
`ValueError` when no batch was drawn; then the gradient loop runs and
`df_deta = f_reduce(df_deta_indiv, axis=0)` aggregates over the flow
axis. -/
def sample_from_flows (flow_list : List TrainedFlow) (n_samples : ℕ)
    (return_indiv : Bool) (grad_batch_size sample_batch_size : ℕ)
    (f_reduce : List (List Pt) → List Pt) : Except String SFFRet :=
  if flow_list.length * sample_batch_size = 0 then .error "ZeroDivisionError" else
  if n_samples / (flow_list.length * sample_batch_size) = 0 then .error "ValueError"
  else
    match gradLoop flow_list
        ((flow_list.map (flowBlock
          (n_samples / (flow_list.length * sample_batch_size))
          sample_batch_size)).flatten) grad_batch_size return_indiv with
    | .error e => .error e
    | .ok indiv =>
        .ok ⟨(flow_list.map (flowBlock
          (n_samples / (flow_list.length * sample_batch_size))
          sample_batch_size)).flatten, f_reduce indiv, indiv⟩

theorem flowBlock_length (n_batches sample_batch_size : ℕ) (flow : TrainedFlow) :
    (flowBlock n_batches sample_batch_size flow).length =
      n_batches * sample_batch_size := by
  unfold flowBlock
  rw [List.length_flatten, List.map_map]
  have : (List.map (List.length ∘ flow.sample sample_batch_size)
      (List.range n_batches)) = List.replicate n_batches sample_batch_size := by
    apply List.eq_replicate_iff.mpr
    refine ⟨by rw [List.length_map, List.length_range], ?_⟩
    intro b hb
    obtain ⟨k, _, rfl⟩ := List.mem_map.mp hb
    exact flow.sample_len _ _
  rw [this, List.sum_replicate, smul_eq_mul]

theorem etaArray_length (flow_list : List TrainedFlow)
    (n_batches sample_batch_size : ℕ) :
    ((flow_list.map (flowBlock n_batches sample_batch_size)).flatten).length =
      flow_list.length * (n_batches * sample_batch_size) := by
  rw [List.length_flatten, List.map_map]
  have : (List.map (List.length ∘ flowBlock n_batches sample_batch_size)
      flow_list) = List.replicate flow_list.length
        (n_batches * sample_batch_size) := by
    apply List.eq_replicate_iff.mpr
    refine ⟨by rw [List.length_map], ?_⟩
    intro b hb
    obtain ⟨fl, _, rfl⟩ := List.mem_map.mp hb
    exact flowBlock_length _ _ fl
  rw [this, List.sum_replicate, smul_eq_mul]

/-- Destructuring of a normal return of `sample_from_flows`. -/
theorem sample_from_flows_ok_elim
    (flow_list : List TrainedFlow) (n_samples : ℕ) (return_indiv : Bool)
    (grad_batch_size sample_batch_size : ℕ)
    (f_reduce : List (List Pt) → List Pt) (r : SFFRet)
    (h : sample_from_flows flow_list n_samples return_indiv grad_batch_size
      sample_batch_size f_reduce = .ok r) :
    flow_list.length * sample_batch_size ≠ 0 ∧
    n_samples / (flow_list.length * sample_batch_size) ≠ 0 ∧
    r.eta = (flow_list.map (flowBlock
      (n_samples / (flow_list.length * sample_batch_size))
      sample_batch_size)).flatten ∧
    gradLoop flow_list r.eta grad_batch_size return_indiv = .ok r.df_deta_indiv ∧
    r.df_deta = f_reduce r.df_deta_indiv := by
  unfold sample_from_flows at h
  by_cases h0 : flow_list.length * sample_batch_size = 0
  · rw [if_pos h0] at h
    exact absurd h (by simp)
  rw [if_neg h0] at h
  by_cases h1 : n_samples / (flow_list.length * sample_batch_size) = 0
  · rw [if_pos h1] at h
    exact absurd h (by simp)
  rw [if_neg h1] at h
  cases heq : gradLoop flow_list
      ((flow_list.map (flowBlock
        (n_samples / (flow_list.length * sample_batch_size))
        sample_batch_size)).flatten) grad_batch_size return_indiv with
  | error e =>
      rw [heq] at h
      exact absurd h (by simp)
  | ok indiv =>
      rw [heq] at h
      simp only [Except.ok.injEq] at h
      subst h
      exact ⟨h0, h1, rfl, heq, rfl⟩

deriving instance DecidableEq for Except

/-- C2: whenever `sample_from_flows` returns, its `eta` array has exactly
`n_flows * (n_samples // (n_flows * sample_batch_size)) * sample_batch_size`
rows — exactly `n_samples` rows when `n_flows * sample_batch_size` divides
`n_samples` and strictly fewer otherwise — and every flow contributes the
same number `n_batches * sample_batch_size` of rows. -/
theorem sample_from_flows_eta_count
    (flow_list : List TrainedFlow) (n_samples : ℕ) (return_indiv : Bool)
    (grad_batch_size sample_batch_size : ℕ)
    (f_reduce : List (List Pt) → List Pt) (r : SFFRet)
    (h : sample_from_flows flow_list n_samples return_indiv grad_batch_size
      sample_batch_size f_reduce = .ok r) :
    r.eta.length =
      flow_list.length * (n_samples / (flow_list.length * sample_batch_size))
        * sample_batch_size ∧
    (flow_list.length * sample_batch_size ∣ n_samples →
      r.eta.length = n_samples) ∧
    (¬ flow_list.length * sample_batch_size ∣ n_samples →
      r.eta.length < n_samples) ∧
    r.eta = (flow_list.map (flowBlock
      (n_samples / (flow_list.length * sample_batch_size))
      sample_batch_size)).flatten ∧
    (∀ flow ∈ flow_list,
      (flowBlock (n_samples / (flow_list.length * sample_batch_size))
        sample_batch_size flow).length =
        (n_samples / (flow_list.length * sample_batch_size))
          * sample_batch_size) := by
  obtain ⟨h0, h1, heta, -, -⟩ :=
    sample_from_flows_ok_elim _ _ _ _ _ _ _ h
  have hlen : r.eta.length = flow_list.length *
      ((n_samples / (flow_list.length * sample_batch_size))
        * sample_batch_size) := by
    rw [heta, etaArray_length]
  have hassoc : flow_list.length *
      ((n_samples / (flow_list.length * sample_batch_size))
        * sample_batch_size) =
      (n_samples / (flow_list.length * sample_batch_size)) *
        (flow_list.length * sample_batch_size) := by ring
  refine ⟨by rw [hlen]; ring, ?_, ?_, heta,
    fun flow _ => flowBlock_length _ _ flow⟩
  · intro hdvd
    rw [hlen, hassoc, Nat.div_mul_cancel hdvd]
  · intro hndvd
    rw [hlen, hassoc]
    refine lt_of_le_of_ne (Nat.div_mul_le_self _ _) ?_
    intro hcontra
    exact hndvd (Dvd.intro_left _ hcontra)

/-- Witness for C2 at a concrete input (one flow, three samples of batch
size one). -/
theorem sample_from_flows_eta_count_witness :
    (SFFRet.mk [(fun _ => 0 : Pt), (fun _ => 0 : Pt), (fun _ => 0 : Pt)] []
        [[(fun _ => 0 : Pt), (fun _ => 0 : Pt), (fun _ => 0 : Pt)]]).eta.length =
      [testFlow].length * (3 / ([testFlow].length * 1)) * 1 ∧
    ([testFlow].length * 1 ∣ 3 →
      (SFFRet.mk [(fun _ => 0 : Pt), (fun _ => 0 : Pt), (fun _ => 0 : Pt)] []
        [[(fun _ => 0 : Pt), (fun _ => 0 : Pt), (fun _ => 0 : Pt)]]).eta.length = 3) ∧
    (¬ [testFlow].length * 1 ∣ 3 →
      (SFFRet.mk [(fun _ => 0 : Pt), (fun _ => 0 : Pt), (fun _ => 0 : Pt)] []
        [[(fun _ => 0 : Pt), (fun _ => 0 : Pt), (fun _ => 0 : Pt)]]).eta.length < 3) ∧
    (SFFRet.mk [(fun _ => 0 : Pt), (fun _ => 0 : Pt), (fun _ => 0 : Pt)] []
        [[(fun _ => 0 : Pt), (fun _ => 0 : Pt), (fun _ => 0 : Pt)]]).eta =
      ([testFlow].map (flowBlock (3 / ([testFlow].length * 1)) 1)).flatten ∧
    (∀ flow ∈ [testFlow],
      (flowBlock (3 / ([testFlow].length * 1)) 1 flow).length =
        (3 / ([testFlow].length * 1)) * 1) :=
  sample_from_flows_eta_count [testFlow] 3 true 1 1 (fun _ => [])
    (SFFRet.mk [(fun _ => 0 : Pt), (fun _ => 0 : Pt), (fun _ => 0 : Pt)] []
      [[(fun _ => 0 : Pt), (fun _ => 0 : Pt), (fun _ => 0 : Pt)]]) (by decide)

/-- With `return_indiv = False` the gradient loop never returns normally on
a nonempty flow list. -/
theorem gradLoop_false_ne_ok (flows : List TrainedFlow) (hne : flows ≠ [])
    (eta : List Pt) (grad_batch_size : ℕ) (rs : List (List Pt)) :
    gradLoop flows eta grad_batch_size false ≠ .ok rs := by
  cases flows with
  | nil => exact absurd rfl hne
  | cons flow rest =>
      intro h
      unfold gradLoop at h
      cases hb : batch_calc_df_deta flow eta grad_batch_size with
      | error e => rw [hb] at h; exact absurd h (by simp)
      | ok g => rw [hb] at h; exact absurd h (by simp)

/-- C8 (amended): for every flow list with at least one flow, calling
`sample_from_flows` with `return_indiv = False` never returns normally —
so `return_indiv = True` is a precondition for a normal return — and it
raises the unbound-variable `NameError` of `df_deta_indiv[i] = ...`
precisely when the stages before that assignment succeed, i.e. when at
least one sample batch is drawn and the gradient batching of the first
flow yields at least two batches; otherwise an earlier exception
(`ZeroDivisionError`, `ValueError`, `InvalidArgumentError` or
`AttributeError`) pre-empts it. -/
theorem sample_from_flows_return_indiv_required
    (flow_list : List TrainedFlow) (n_samples grad_batch_size
      sample_batch_size : ℕ) (f_reduce : List (List Pt) → List Pt)
    (hnf : 1 ≤ flow_list.length) :
    (∀ r, sample_from_flows flow_list n_samples false grad_batch_size
      sample_batch_size f_reduce ≠ .ok r) ∧
    (1 ≤ n_samples / (flow_list.length * sample_batch_size) →
      0 < grad_batch_size →
      grad_batch_size < flow_list.length *
        (n_samples / (flow_list.length * sample_batch_size))
          * sample_batch_size →
      sample_from_flows flow_list n_samples false grad_batch_size
        sample_batch_size f_reduce = .error "NameError") := by
  constructor
  · intro r h
    obtain ⟨-, -, -, hgl, -⟩ := sample_from_flows_ok_elim _ _ _ _ _ _ _ h
    exact gradLoop_false_ne_ok flow_list
      (by intro h'; rw [h'] at hnf; exact absurd hnf (by simp)) _ _ _ hgl
  · intro hnb hgbs hlt
    have h0 : flow_list.length * sample_batch_size ≠ 0 := by
      intro h'
      rw [h', Nat.div_zero] at hnb
      omega
    have h1 : n_samples / (flow_list.length * sample_batch_size) ≠ 0 := by
      omega
    unfold sample_from_flows
    rw [if_neg h0, if_neg h1]
    have hetalen : ((flow_list.map (flowBlock
        (n_samples / (flow_list.length * sample_batch_size))
        sample_batch_size)).flatten).length =
        flow_list.length *
          (n_samples / (flow_list.length * sample_batch_size))
            * sample_batch_size := by
      rw [etaArray_length]; ring
    have hgl : gradLoop flow_list
        ((flow_list.map (flowBlock
          (n_samples / (flow_list.length * sample_batch_size))
          sample_batch_size)).flatten) grad_batch_size false =
        .error "NameError" := by
      cases flow_list with
      | nil => exact absurd hnf (by simp)
      | cons flow rest =>
          unfold gradLoop
          rw [batch_calc_df_deta_ok flow _ grad_batch_size hgbs
            (by rw [hetalen]; exact hlt)]
          simp
    rw [hgl]

/-- Witness for the amended C8 at a concrete input where the `NameError` is
reached. -/
theorem sample_from_flows_return_indiv_required_witness :
    sample_from_flows [testFlow] 3 false 1 1 (fun _ => []) =
      .error "NameError" :=
  (sample_from_flows_return_indiv_required [testFlow] 3 1 1 (fun _ => [])
    (by decide)).2 (by decide) (by decide) (by decide)

/-- C8 counterexample: with one flow but zero samples requested, the call
with `return_indiv = False` raises `ValueError` (from
`np.concatenate([])`), not the `NameError` the claim asserts. -/
theorem sample_from_flows_not_always_name_error :
    sample_from_flows [testFlow] 0 false 1 1 (fun _ => []) =
      .error "ValueError" ∧
    sample_from_flows [testFlow] 0 false 1 1 (fun _ => []) ≠
      .error "NameError" := by
  constructor
  · decide
  · decide

/-- `np.median` of a 1-d rational array: the average of the two middle
entries of the sorted array. -/
def npMedian (l : List ℚ) : ℚ :=
  ((npSort l).getD ((l.length - 1) / 2) 0 + (npSort l).getD (l.length / 2) 0) / 2

/-- `np.median(arr, axis=0)` for the stacked gradients of shape
`(n_flows, n, 6)`, given as a list of `(n, 6)` arrays: the elementwise
median across the flow axis.  Row count taken from the first flow (numpy
arrays are rectangular); missing entries default to the zero row. -/
def np_median_axis0 (arr : List (List Pt)) : List Pt :=
  (List.range (arr.headD []).length).map
    (fun i => fun d => npMedian (arr.map (fun rows => (rows.getD i default) d)))

/-- `clipped_vector_mean` marshalled to the stacked-list representation used
by `sample_from_flows`: the list of rows is viewed as the `(n_samp, n_point,
n_dim)` array with the flow axis as sample axis (missing entries default to
the zero row; numpy arrays are rectangular).  The `axis=0` keyword passed by
`sample_from_flows` lands in `**kwargs` and is ignored; `clip_threshold=5`
and `rounds=5` are the source defaults. -/
def clipped_vector_mean_arr (arr : List (List Pt)) : List Pt :=
  (List.finRange (arr.headD []).length).map
    (fun p => fun d =>
      clipped_vector_mean
        (fun s q e => ((arr.getD s.val []).getD q.val default) e :
          Fin arr.length → Fin (arr.headD []).length → Fin 6 → ℚ) 5 5 p d)

/-- The `f_reduce` selected by `main` (line 534 of `fit_all.py`):
`np.median` when the `--flow-median` option is given, `clipped_vector_mean`
otherwise. -/
def main_f_reduce (flow_median : Bool) : List (List Pt) → List Pt :=
  if flow_median then np_median_axis0 else clipped_vector_mean_arr

/-- A normal return of `batch_calc_df_deta` has as many rows as `eta`. -/
theorem batch_calc_df_deta_ok_length (flow : TrainedFlow) (eta : List Pt)
    (bs : ℕ) (r : List Pt) (h : batch_calc_df_deta flow eta bs = .ok r) :
    r.length = eta.length := by
  unfold batch_calc_df_deta at h
  by_cases hz : bs = 0
  · rw [if_pos hz] at h
    exact absurd h (by simp)
  rw [if_neg hz] at h
  by_cases hlt : (batchDataset bs eta).length < 2
  · rw [if_pos hlt] at h
    exact absurd h (by simp)
  rw [if_neg hlt] at h
  simp only [Except.ok.injEq] at h
  subst h
  rw [← List.map_flatten, batchDataset_flatten (by omega) eta, List.length_map]

/-- A normal return of the gradient loop holds one gradient array per flow,
each with as many rows as `eta`. -/
theorem gradLoop_ok_shape (flows : List TrainedFlow) (eta : List Pt)
    (grad_batch_size : ℕ) (return_indiv : Bool) (rs : List (List Pt))
    (h : gradLoop flows eta grad_batch_size return_indiv = .ok rs) :
    rs.length = flows.length ∧ ∀ g ∈ rs, g.length = eta.length := by
  induction flows generalizing rs with
  | nil =>
      unfold gradLoop at h
      simp only [Except.ok.injEq] at h
      subst h
      exact ⟨rfl, by simp⟩
  | cons flow rest ih =>
      unfold gradLoop at h
      cases hb : batch_calc_df_deta flow eta grad_batch_size with
      | error e => rw [hb] at h; exact absurd h (by simp)
      | ok g =>
          rw [hb] at h
          cases hri : return_indiv with
          | false => rw [hri] at h; exact absurd h (by simp)
          | true =>
              rw [hri] at h
              cases hrec : gradLoop rest eta grad_batch_size true with
              | error e =>
                  rw [hrec] at h
                  exact absurd h (by simp)
              | ok gs =>
                  rw [hrec] at h
                  simp only [if_true, Except.ok.injEq] at h
                  subst h
                  obtain ⟨hlen, hmem⟩ := ih gs (by rw [hri]; exact hrec)
                  refine ⟨by simp [hlen], ?_⟩
                  intro g' hg'
                  rcases List.mem_cons.mp hg' with rfl | hg'
                  · exact batch_calc_df_deta_ok_length flow eta _ g' hb
                  · exact hmem g' hg'

/-- C4: the aggregated gradient `df_deta` returned by `sample_from_flows`
equals `f_reduce` applied along the flow axis of the stacked per-flow
gradients `df_deta_indiv` (one `(n, 6)` gradient array per flow); and in
`main`, `f_reduce` is `np.median` along axis 0 when `--flow-median` is
given and `clipped_vector_mean` otherwise. -/
theorem sample_from_flows_df_deta_is_reduced
    (flow_list : List TrainedFlow) (n_samples : ℕ) (return_indiv : Bool)
    (grad_batch_size sample_batch_size : ℕ)
    (f_reduce : List (List Pt) → List Pt) (r : SFFRet)
    (h : sample_from_flows flow_list n_samples return_indiv grad_batch_size
      sample_batch_size f_reduce = .ok r) :
    r.df_deta = f_reduce r.df_deta_indiv ∧
    r.df_deta_indiv.length = flow_list.length ∧
    (∀ g ∈ r.df_deta_indiv, g.length = r.eta.length) ∧
    main_f_reduce true = np_median_axis0 ∧
    main_f_reduce false = clipped_vector_mean_arr := by
  obtain ⟨-, -, -, hgl, hred⟩ := sample_from_flows_ok_elim _ _ _ _ _ _ _ h
  obtain ⟨hlen, hmem⟩ := gradLoop_ok_shape _ _ _ _ _ hgl
  exact ⟨hred, hlen, hmem, rfl, rfl⟩

/-- Witness for C4 at a concrete input. -/
theorem sample_from_flows_df_deta_is_reduced_witness :
    (SFFRet.mk [(fun _ => 0 : Pt), (fun _ => 0 : Pt), (fun _ => 0 : Pt)] []
        [[(fun _ => 0 : Pt), (fun _ => 0 : Pt), (fun _ => 0 : Pt)]]).df_deta =
      (fun _ => ([] : List Pt))
        (SFFRet.mk [(fun _ => 0 : Pt), (fun _ => 0 : Pt), (fun _ => 0 : Pt)] []
          [[(fun _ => 0 : Pt), (fun _ => 0 : Pt), (fun _ => 0 : Pt)]]).df_deta_indiv ∧
    (SFFRet.mk [(fun _ => 0 : Pt), (fun _ => 0 : Pt), (fun _ => 0 : Pt)] []
        [[(fun _ => 0 : Pt), (fun _ => 0 : Pt), (fun _ => 0 : Pt)]]).df_deta_indiv.length =
      [testFlow].length ∧
    (∀ g ∈ (SFFRet.mk [(fun _ => 0 : Pt), (fun _ => 0 : Pt), (fun _ => 0 : Pt)] []
        [[(fun _ => 0 : Pt), (fun _ => 0 : Pt), (fun _ => 0 : Pt)]]).df_deta_indiv,
      g.length =
        (SFFRet.mk [(fun _ => 0 : Pt), (fun _ => 0 : Pt), (fun _ => 0 : Pt)] []
          [[(fun _ => 0 : Pt), (fun _ => 0 : Pt), (fun _ => 0 : Pt)]]).eta.length) ∧
    main_f_reduce true = np_median_axis0 ∧
    main_f_reduce false = clipped_vector_mean_arr :=
  sample_from_flows_df_deta_is_reduced [testFlow] 3 true 1 1
    (fun _ => ([] : List Pt))
    (SFFRet.mk [(fun _ => 0 : Pt), (fun _ => 0 : Pt), (fun _ => 0 : Pt)] []
      [[(fun _ => 0 : Pt), (fun _ => 0 : Pt), (fun _ => 0 : Pt)]]) (by decide)

/-! ## Training wrappers (claims C5, C6)

`potential_tf` and `flow_ffjord_tf` are separate modules of the repository
that are not part of this snapshot; only their call sites appear in
`fit_all.py`.  Their models and training routines are therefore modelled
from the spec as records of constructor arguments and training oracles
(training mutates the TensorFlow models in place; purely, the oracle maps
the initial model and the data to the trained model).  File saving,
checkpointing and plotting in the wrappers are dropped as I/O glue. -/

/-- `np.mean` of a 1-d rational array. -/
def npMean (l : List ℚ) : ℚ := l.sum / l.length

/-- Population variance (`np.std` squared), exact over the rationals. -/
def npVarQ (l : List ℚ) : ℚ := (l.map (fun x => (x - npMean l) ^ 2)).sum / l.length

/-- `np.std` of a 1-d rational array, over the reals. -/
noncomputable def npStd (l : List ℚ) : ℝ := Real.sqrt ((npVarQ l : ℝ))

/-- Column `d` of a list of rows. -/
def column (data : List Pt) (d : Fin 6) : List ℚ := data.map (fun r => r d)

/-- Modelled from the spec: `potential_tf.PhiNN(n_dim, n_hidden,
hidden_size, scale)` is the neural potential model; its network internals
live in `potential_tf`, which is missing from this snapshot, so the model
is represented by its constructor arguments (spatial scale per dimension). -/
structure PhiNN where
  n_dim : ℕ
  n_hidden : ℕ
  hidden_size : ℕ
  scale : Fin 3 → ℝ

/-- The `frameshift` keyword arguments of `fit_all.py`'s parameter schema. -/
structure FrameShiftParams where
  omega0 : ℚ
  r_c0 : ℚ
  u_LSRx0 : ℚ
  u_LSRy0 : ℚ
  u_LSRz0 : ℚ

/-- Modelled from the spec: `potential_tf.FrameShift(n_dim, **frameshift)`,
the rotating-frame model, represented by its constructor arguments
(internals missing from this snapshot). -/
structure FrameShift where
  n_dim : ℕ
  params : FrameShiftParams

/-- Modelled from the spec: `potential_tf.train_potential` fits the
potential (and optional frame-shift) so that the DF gradients are
consistent with the collisionless Boltzmann equation; it is missing from
this snapshot and is an oracle from the DF gradient data and the initial
models to the trained models (training hyperparameters omitted). -/
structure PotentialTF where
  trainPhi : SFFRet → PhiNN → Option FrameShift → PhiNN
  trainFS : SFFRet → PhiNN → FrameShift → FrameShift

/-- `train_potential(df_data, ...)` (lines 121-178 of `fit_all.py`):
estimate the per-dimension spatial scale as the standard deviation of the
first three columns (the positions) of `df_data['eta']`, build the `PhiNN`
over `n_dim=3` with that scale, optionally build a `FrameShift` over 3
dimensions, train with `potential_tf.train_potential` on `df_data`, and
return the potential model alone — or the pair with the frame-shift model
when `include_frameshift` is true. -/
noncomputable def train_potential (ptf : PotentialTF) (df_data : SFFRet)
    (n_hidden hidden_size : ℕ) (xi lam l2 : ℚ)
    (include_frameshift : Bool) (frameshift : FrameShiftParams) :
    PhiNN ⊕ (PhiNN × FrameShift) :=
  let q_scale : Fin 3 → ℝ :=
    fun d => npStd (column df_data.eta (Fin.castLE (by norm_num) d))
  let phi_model : PhiNN := ⟨3, n_hidden, hidden_size, q_scale⟩
  let frameshift_model : Option FrameShift :=
    if include_frameshift then some ⟨3, frameshift⟩ else none
  let phi_trained := ptf.trainPhi df_data phi_model frameshift_model
  if include_frameshift then
    .inr (phi_trained, ptf.trainFS df_data phi_model ⟨3, frameshift⟩)
  else .inl phi_trained

/-- C5: `train_potential` constructs `PhiNN` over the 3 spatial dimensions
only, with its per-dimension scale the standard deviation of the first
three columns (the positions) of `df_data['eta']`, trains it with
`potential_tf.train_potential` on the DF gradient data, and returns the
potential model alone when `include_frameshift` is false, or the pair of
potential and frame-shift model when it is true. -/
theorem train_potential_builds_and_returns (ptf : PotentialTF)
    (df_data : SFFRet) (n_hidden hidden_size : ℕ) (xi lam l2 : ℚ)
    (include_frameshift : Bool) (frameshift : FrameShiftParams) :
    (include_frameshift = false →
      train_potential ptf df_data n_hidden hidden_size xi lam l2
        include_frameshift frameshift =
      .inl (ptf.trainPhi df_data
        (PhiNN.mk 3 n_hidden hidden_size
          (fun d => npStd (column df_data.eta (Fin.castLE (by norm_num) d))))
        none)) ∧
    (include_frameshift = true →
      train_potential ptf df_data n_hidden hidden_size xi lam l2
        include_frameshift frameshift =
      .inr (ptf.trainPhi df_data
          (PhiNN.mk 3 n_hidden hidden_size
            (fun d => npStd (column df_data.eta (Fin.castLE (by norm_num) d))))
          (some (FrameShift.mk 3 frameshift)),
        ptf.trainFS df_data
          (PhiNN.mk 3 n_hidden hidden_size
            (fun d => npStd (column df_data.eta (Fin.castLE (by norm_num) d))))
          (FrameShift.mk 3 frameshift))) := by
  constructor
  · intro h
    subst h
    rfl
  · intro h
    subst h
    rfl

/-- Witness for C5 at a concrete input (identity training oracle, empty
data, no frame shift). -/
theorem train_potential_builds_and_returns_witness :
    train_potential (PotentialTF.mk (fun _ p _ => p) (fun _ _ f => f))
      (SFFRet.mk [] [] []) 2 4 1 1 0 false
      (FrameShiftParams.mk 0 0 0 0 0) =
    .inl ((PotentialTF.mk (fun _ p _ => p) (fun _ _ f => f)).trainPhi
      (SFFRet.mk [] [] [])
      (PhiNN.mk 3 2 4
        (fun d => npStd (column (SFFRet.mk [] [] []).eta
          (Fin.castLE (by norm_num) d))))
      none) :=
  (train_potential_builds_and_returns (PotentialTF.mk (fun _ p _ => p)
    (fun _ _ f => f)) (SFFRet.mk [] [] []) 2 4 1 1 0 false
    (FrameShiftParams.mk 0 0 0 0 0)).1 rfl

/-- Modelled from the spec: `flow_ffjord_tf.FFJORDFlow(6, n_hidden,
hidden_size, n_bij, base_mean=..., base_std=...)`, a continuous normalizing
flow over the 6-dimensional phase space, represented by its constructor
arguments (network internals missing from this snapshot). -/
structure FFJORDFlow where
  dim : ℕ
  n_hidden : ℕ
  hidden_size : ℕ
  n_bij : ℕ
  base_mean : Fin 6 → ℚ
  base_std : Fin 6 → ℝ

noncomputable instance : Inhabited FFJORDFlow :=
  ⟨⟨0, 0, 0, 0, fun _ => 0, fun _ => 0⟩⟩

/-- Modelled from the spec: `flow_ffjord_tf.train_flow` optimizes one flow
on the data (missing from this snapshot); training is stochastic, so the
oracle is additionally indexed by the training-run number, and it maps the
freshly constructed flow and the data to the trained flow. -/
structure FlowFFJORDTF where
  train_flow : ℕ → FFJORDFlow → List Pt → FFJORDFlow

/-- `train_flows(data, ...)` (lines 54-118 of `fit_all.py`): compute the
per-dimension mean and standard deviation of the full input data once,
then for `i = 0, ..., n_flows - 1` construct a fresh 6-dimensional
`FFJORDFlow` with that base mean and standard deviation, append it to
`flow_list`, and train it in place; the list of the trained flows is
returned in training order. -/
noncomputable def train_flows (ftf : FlowFFJORDTF) (data : List Pt)
    (n_flows n_hidden hidden_size n_bij : ℕ) : List FFJORDFlow :=
  let data_mean : Fin 6 → ℚ := fun d => npMean (column data d)
  let data_std : Fin 6 → ℝ := fun d => npStd (column data d)
  (List.range n_flows).foldl
    (fun flow_list i =>
      flow_list ++ [ftf.train_flow i
        (FFJORDFlow.mk 6 n_hidden hidden_size n_bij data_mean data_std) data])
    []

theorem foldl_append_eq_map {α β : Type} (g : α → β) (l : List α) :
    ∀ acc : List β, l.foldl (fun acc i => acc ++ [g i]) acc = acc ++ l.map g := by
  induction l with
  | nil => intro acc; simp
  | cons a l ih =>
      intro acc
      rw [List.foldl_cons, ih, List.map_cons, List.append_assoc]
      rfl

/-- C6: `train_flows` constructs and trains exactly `n_flows` FFJORD flows,
each over the 6-dimensional phase space and each initialized with the same
per-dimension base mean and standard deviation of the full input data, and
returns the list of the trained flows in training order. -/
theorem train_flows_builds_n_flows (ftf : FlowFFJORDTF) (data : List Pt)
    (n_flows n_hidden hidden_size n_bij : ℕ) :
    (train_flows ftf data n_flows n_hidden hidden_size n_bij).length =
      n_flows ∧
    ∀ i, i < n_flows →
      (train_flows ftf data n_flows n_hidden hidden_size n_bij).getD i default =
        ftf.train_flow i
          (FFJORDFlow.mk 6 n_hidden hidden_size n_bij
            (fun d => npMean (column data d)) (fun d => npStd (column data d)))
          data := by
  unfold train_flows
  rw [foldl_append_eq_map, List.nil_append]
  constructor
  · rw [List.length_map, List.length_range]
  · intro i hi
    rw [List.getD_eq_getElem _ _ (by
      rw [List.length_map, List.length_range]; exact hi)]
    rw [List.getElem_map, List.getElem_range]

/-- Witness for C6 at a concrete input (identity training oracle). -/
theorem train_flows_builds_n_flows_witness :
    (train_flows (FlowFFJORDTF.mk (fun _ f _ => f)) [] 1 4 32 1).length = 1 ∧
    (train_flows (FlowFFJORDTF.mk (fun _ f _ => f)) [] 1 4 32 1).getD 0 default =
      (FlowFFJORDTF.mk (fun _ f _ => f)).train_flow 0
        (FFJORDFlow.mk 6 4 32 1 (fun d => npMean (column [] d))
          (fun d => npStd (column [] d))) [] :=
  ⟨(train_flows_builds_n_flows (FlowFFJORDTF.mk (fun _ f _ => f)) [] 1 4 32 1).1,
   (train_flows_builds_n_flows (FlowFFJORDTF.mk (fun _ f _ => f)) [] 1 4 32 1).2
     0 (by norm_num)⟩
